import Mathlib

/-!
Verification of the `timer` command-line utility (package `main`, file
`cmd.go`) against its natural-language specification.

The development shallowly embeds the Go source:

* the bitmask-keyed argument dispatcher of `NewCmd` / `Run` (`cmd.go`),
* Go's `time.ParseDuration` (the countdown duration parser),
* the countdown engine `timed`, its background progress updater and the
  channel rendezvous that stops it,
* the sound library construction of `NewCmd` (name derivation via
  `filepath.Base`, `filepath.Ext` and `strings.Replace(.., .., "", 1)`),
* the operations `timedSound`, `timedNotify`, `timedSoundNotify`,
  `playSound`, `addSound`, `deleteSound`.

External effects (the audio subprocess, the desktop notification, file
reads/writes/removals) are abstracted by an oracle record `Ext`; machine
integers (Go `int64`) are modelled as `Nat`/`Int` with explicit bounds
checks at `2^63` where the Go code checks for overflow, and Go's `/` on
integers (truncation toward zero) is `Int.tdiv`.
-/

namespace Timer

/-! ## Argument dispatcher (`cmd.go`: constants `_argTime` .. `_argDeleteSound`,
`NewCmd`, `Run`) -/

/-- Bit positions of the flags, from the `iota + 1` constant block of `cmd.go`. -/
def argTime : Nat := 1

def argSound : Nat := 2

def argSounds : Nat := 3

def argNotify : Nat := 4

def argAddSound : Nat := 5

def argDeleteSound : Nat := 6

/-- The operations the dispatcher can select (method values stored in `cmd.funcs`). -/
inductive Op where
  | timed
  | timedSound
  | timedNotify
  | timedSoundNotify
  | listSounds
  | playSound
  | addSound
  | deleteSound
  deriving DecidableEq

/-- The dispatch table built in `NewCmd` (`cmd.funcs[...] = ...`, lines 123-130):
each key is a bitwise-or of `1 << argX` flag bits. -/
def funcsTable : List (Nat × Op) :=
  [ (1 <<< argTime, .timed)
  , ((1 <<< argTime) ||| (1 <<< argSound), .timedSound)
  , ((1 <<< argTime) ||| (1 <<< argNotify), .timedNotify)
  , ((1 <<< argTime) ||| (1 <<< argSound) ||| (1 <<< argNotify), .timedSoundNotify)
  , (1 <<< argSounds, .listSounds)
  , (1 <<< argSound, .playSound)
  , (1 <<< argAddSound, .addSound)
  , (1 <<< argDeleteSound, .deleteSound) ]

/-- Exact-match lookup of a bitmask in the dispatch table, as done by
`cmd.funcs[argsSet]` in `Run`: a Go map lookup, no partial or superset fallback. -/
def dispatch (mask : Nat) : Option Op :=
  (funcsTable.find? (fun p => p.1 == mask)).map (fun p => p.2)

/-- The raw command-line arguments (`cmdArgs` struct of `cmd.go`). -/
structure cmdArgs where
  time : String
  sound : String
  sounds : Bool
  notify : Bool
  addSound : String
  deleteSound : String
  verbose : Bool

/-- The bitmask of present flags computed at the top of `Run`
(`argsSet |= 1 << _argX` for each supplied flag). -/
def argsSet (a : cmdArgs) : Nat :=
  let s : Nat := 0
  let s := if a.time ≠ "" then s ||| (1 <<< argTime) else s
  let s := if a.sound ≠ "" then s ||| (1 <<< argSound) else s
  let s := if a.sounds ≠ false then s ||| (1 <<< argSounds) else s
  let s := if a.notify ≠ false then s ||| (1 <<< argNotify) else s
  let s := if a.addSound ≠ "" then s ||| (1 <<< argAddSound) else s
  let s := if a.deleteSound ≠ "" then s ||| (1 <<< argDeleteSound) else s
  s

/-- Restatement of the table of spec section 4.3/4.4 as a function on bitmasks:
the combinations the spec's table associates with an operation, written out
value by value. This definition follows the spec's words (for the refinement
comparison with `dispatch`, which follows the source). -/
def specDispatch (mask : Nat) : Option Op :=
  if mask = 2 then some .timed
  else if mask = 6 then some .timedSound
  else if mask = 18 then some .timedNotify
  else if mask = 22 then some .timedSoundNotify
  else if mask = 8 then some .listSounds
  else if mask = 4 then some .playSound
  else if mask = 32 then some .addSound
  else if mask = 64 then some .deleteSound
  else none

/-! ## Duration parsing, after Go's `time.ParseDuration` (`time/format.go`),
which `timed` calls on `cmd.args.time`. Go `int64` values are modelled as
`Nat` for the non-negative accumulators, with the source's overflow checks
made explicit against `2^63`: an `int64` expression that Go detects as
overflowed by becoming negative is detected here by reaching `2^63`. -/

/-- Largest `int64` value, `1<<63 - 1`; the overflow guard bound of `leadingInt`. -/
def maxInt64 : Nat := 2 ^ 63 - 1

/-- Character test `'0' <= c && c <= '9'` used by the parsing loops. -/
def isDigitCh (c : Char) : Bool := 48 ≤ c.toNat && c.toNat ≤ 57

/-- Loop body of Go's `leadingInt`: consume `[0-9]*` from the front of `s`
accumulating `x = x*10 + c - '0'`, failing (`errLeadingInt`) on `int64`
overflow; returns the value and the remaining characters. -/
def leadingIntGo (x : Nat) : List Char → Option (Nat × List Char)
  | [] => some (x, [])
  | c :: cs =>
    if !isDigitCh c then some (x, c :: cs)
    else if x > maxInt64 / 10 then none
    else
      let y := x * 10 + (c.toNat - 48)
      if y ≥ 2 ^ 63 then none
      else leadingIntGo y cs

/-- Go's `leadingInt`. -/
def leadingInt (s : List Char) : Option (Nat × List Char) := leadingIntGo 0 s

/-- Loop body of Go's `leadingFraction`: consume `[0-9]*`, accumulating the
fraction digits into `x` and the power-of-ten `scale`, silently stopping the
accumulation (but still consuming digits) once an overflow would occur. -/
def leadingFractionGo (x scale : Nat) (overflow : Bool) :
    List Char → Nat × Nat × List Char
  | [] => (x, scale, [])
  | c :: cs =>
    if !isDigitCh c then (x, scale, c :: cs)
    else if overflow then leadingFractionGo x scale true cs
    else if x > maxInt64 / 10 then leadingFractionGo x scale true cs
    else
      let y := x * 10 + (c.toNat - 48)
      if y ≥ 2 ^ 63 then leadingFractionGo x scale true cs
      else leadingFractionGo y (scale * 10) false cs

/-- Go's `leadingFraction` (its `scale` is a `float64` power of ten; powers of
ten up to the overflow bound are exactly representable, so `Nat` is faithful). -/
def leadingFraction (s : List Char) : Nat × Nat × List Char :=
  leadingFractionGo 0 1 false s

/-- The `unitMap` of `time/format.go`: nanoseconds per unit. -/
def unitMap : List Char → Option Nat
  | ['n', 's'] => some 1
  | ['u', 's'] => some 1000
  | ['µ', 's'] => some 1000
  | ['μ', 's'] => some 1000
  | ['m', 's'] => some 1000000
  | ['s'] => some 1000000000
  | ['m'] => some 60000000000
  | ['h'] => some 3600000000000
  | _ => none

/-- Error cases of `time.ParseDuration` (the distinct messages it produces). -/
inductive DurErr where
  | invalid
  | missingUnit
  | unknownUnit
  deriving DecidableEq

/-- Main loop of `time.ParseDuration` (`for s != "" { ... }`), accumulating the
total `d` in nanoseconds. Each pass consumes `[0-9]*(\.[0-9]*)?<unit>` with at
least one character, so fuel `s.length + 1` never runs out; the fuel-exhausted
branch returns the same error the source returns for malformed input.
The fractional contribution `int64(float64(f) * (float64(unit) / scale))` is
modelled by the exact `f * unit / scale`; the two coincide whenever the
product is exactly representable in `float64`, in particular on every input
the theorems below evaluate. -/
def durLoopGo : Nat → Nat → List Char → Except DurErr Nat
  | 0, _, _ => .error .invalid
  | _ + 1, d, [] => .ok d
  | fuel + 1, d, c :: cs =>
    if !(c == '.' || isDigitCh c) then .error .invalid
    else
      match leadingInt (c :: cs) with
      | none => .error .invalid
      | some (v, s1) =>
        let pre : Bool := s1.length != (c :: cs).length
        let fps :=
          match s1 with
          | '.' :: rest =>
            let fr := leadingFraction rest
            (fr.1, fr.2.1, fr.2.2, fr.2.2.length != rest.length)
          | other => (0, 1, other, false)
        let f := fps.1
        let scale := fps.2.1
        let s2 := fps.2.2.1
        let post := fps.2.2.2
        if !pre && !post then .error .invalid
        else
          let u := s2.takeWhile (fun ch => !(ch == '.' || isDigitCh ch))
          let s3 := s2.drop u.length
          if u.length = 0 then .error .missingUnit
          else
            match unitMap u with
            | none => .error .unknownUnit
            | some unit =>
              if v > maxInt64 / unit then .error .invalid
              else
                let v1 := v * unit
                let v2 := if f > 0 then v1 + f * unit / scale else v1
                if f > 0 && decide (v2 ≥ 2 ^ 63) then .error .invalid
                else
                  let d1 := d + v2
                  if d1 ≥ 2 ^ 63 then .error .invalid
                  else durLoopGo fuel d1 s3

/-- Go's `time.ParseDuration`: optional sign, the special case `"0"`, then the
`<number><unit>` loop; the result is a duration in nanoseconds (`Int`, since a
leading minus negates). -/
def parseDuration (str : String) : Except DurErr Int :=
  let s0 := str.data
  let sgn :=
    match s0 with
    | '-' :: rest => (true, rest)
    | '+' :: rest => (false, rest)
    | other => (false, other)
  let neg := sgn.1
  let s := sgn.2
  if s = ['0'] then .ok 0
  else if s = [] then .error .invalid
  else
    match durLoopGo (s.length + 1) 0 s with
    | .error e => .error e
    | .ok d => if neg then .ok (-(d : Int)) else .ok (d : Int)

/-! ## Path and string helpers used by `NewCmd`, `addSound` (Go `path/filepath`
and `strings`), on the Unix path layout of `cmd_windows.go`'s Linux sibling. -/

/-- Go `filepath.Ext`: the suffix beginning at the final dot in the final
path element, or empty if there is no dot. Implemented by scanning the
reversed character list until a dot or a path separator. -/
def goExtAux (acc : List Char) : List Char → List Char
  | [] => []
  | c :: cs =>
    if c == '/' then []
    else if c == '.' then '.' :: acc
    else goExtAux (c :: acc) cs

/-- Go `filepath.Ext` on a character list. -/
def goExt (s : List Char) : List Char := goExtAux [] s.reverse

/-- Go `filepath.Base` (Unix): empty path gives `"."`; trailing slashes are
stripped; the part after the last remaining slash is returned, or `"/"` if
only slashes were present. -/
def goBase (s : List Char) : List Char :=
  if s = [] then ['.']
  else
    let s1 := (s.reverse.dropWhile (fun c => c == '/')).reverse
    let s2 := (s1.reverse.takeWhile (fun c => c != '/')).reverse
    if s2 = [] then ['/'] else s2

/-- First index at which `pat` occurs as a contiguous sublist of `s`
(`some 0` for the empty pattern), as used by `strings.Replace` to locate the
occurrence to replace. -/
def findSub (s pat : List Char) : Option Nat :=
  if s.take pat.length = pat then some 0
  else
    match s with
    | [] => none
    | _ :: cs => (findSub cs pat).map (· + 1)

/-- Go `strings.Replace(s, old, new, 1)`: if `old = new` the string is
returned unchanged; otherwise the first occurrence of `old` (the position
before the first character when `old` is empty) is replaced by `new`;
if `old` does not occur, the string is returned unchanged. -/
def goReplace1 (s old new : List Char) : List Char :=
  if old = new then s
  else
    match findSub s old with
    | none => s
    | some i => s.take i ++ new ++ s.drop (i + old.length)

/-- The registered name of a sound file, from `NewCmd` line 144:
`strings.Replace(filepath.Base(v.Name()), filepath.Ext(v.Name()), "", 1)`. -/
def soundName (fileName : List Char) : List Char :=
  goReplace1 (goBase fileName) (goExt fileName) []

/-- Restatement of the spec's naming rule ("stripping each file's extension to
form its name"): drop the extension suffix from the base name. This definition
follows the spec's words (for comparison with `soundName`, which follows the
source). -/
def stripSuffixName (fileName : List Char) : List Char :=
  (goBase fileName).take ((goBase fileName).length - (goExt fileName).length)

/-- Go `filepath.Join` of two components, restricted to the already-clean and
non-empty components this program joins (a config directory and a directory
entry name), where `Join(a, b) = a + "/" + b`. -/
def pathJoin (a b : String) : String := a ++ "/" ++ b

/-- The sounds configuration directory of the Linux build
(`cmd_windows.go`'s sibling file): `filepath.Join(os.Getenv("HOME"), ".config",
"timer", "sounds")`, parameterised by the value of `HOME`. -/
def getSoundsDir (home : String) : String :=
  pathJoin (pathJoin (pathJoin home ".config") "timer") "sounds"

/-! ## The sound library map (`cmd.sounds`), a Go `map[string]string`,
modelled as an association list with overwriting insertion. -/

/-- Assignment `m[k] = v` on a Go map modelled as an association list:
replaces the binding of `k` if present, otherwise appends it. -/
def mapInsert : List (String × String) → String → String → List (String × String)
  | [], k, v => [(k, v)]
  | (q, w) :: rest, k, v =>
    if q == k then (k, v) :: rest else (q, w) :: mapInsert rest k v

/-- Go map lookup `m[k]` (comma-ok form): exact, case-sensitive string
equality on the key. -/
def lookupSounds (m : List (String × String)) (k : String) : Option String :=
  (m.find? (fun p => p.1 == k)).map (fun p => p.2)

/-- The library construction loop of `NewCmd` (lines 143-146): for each file
name in the configuration directory listing, register it under `soundName`
with the joined path as value. -/
def buildSounds (dir : String) (files : List String) : List (String × String) :=
  files.foldl
    (fun m f => mapInsert m (String.mk (soundName f.data)) (pathJoin dir f)) []

/-! ## Operations as effect traces

Each operation of `cmd.go` is modelled as a function returning the sequence
of externally visible effects it performs, in order, together with its
outcome. The external world (subprocess for audio, desktop notification,
file system) is an oracle `Ext`; `os.Exit`/`panic` inside `time.NewTicker`
is the distinguished outcome `panicked`. -/

/-- Externally visible effects of the operations, in the order performed. -/
inductive Event where
  | countdown (t : Int)
  | played (path : String)
  | notified
  | removedFile (path : String)
  | wroteFile (path : String) (data : List Nat)
  deriving DecidableEq

/-- Error results of the operations (the distinct error returns of `cmd.go`). -/
inductive CmdErr where
  | durationParse
  | soundNotFound
  | playFailed
  | notifyFailed
  | removeFailed
  | readFailed
  | writeFailed
  deriving DecidableEq

/-- Outcome of running one operation: normal return, error return (Go
`error`), or a runtime panic (which is not an error return: `Run` never sees
it and the deferred error printing never happens). -/
inductive Outcome where
  | ok
  | err (e : CmdErr)
  | panicked
  deriving DecidableEq

/-- Boolean test for the error-return outcomes. -/
def Outcome.isErr : Outcome → Bool
  | .err _ => true
  | _ => false

/-- An operation's effect trace and outcome. -/
structure Trace where
  events : List Event
  outcome : Outcome
  deriving DecidableEq

/-- Oracle for the collaborators outside `cmd.go`: whether the audio
subprocess and the notification succeed, whether `os.Remove` of a path
succeeds, the content `ioutil.ReadFile` yields for a path (`none` on error),
and whether `ioutil.WriteFile` to a path succeeds. -/
structure Ext where
  playOk : Bool
  notifyOk : Bool
  removeOk : String → Bool
  readFile : String → Option (List Nat)
  writeOk : String → Bool

/-- Sequencing of two steps of a composite operation (`if err := ...; err != nil
{ return err }`): the second runs only if the first returned normally, and an
abnormal outcome propagates. -/
def seqT (a : Trace) (b : Unit → Trace) : Trace :=
  match a.outcome with
  | .ok =>
    let tb := b ()
    ⟨a.events ++ tb.events, tb.outcome⟩
  | o => ⟨a.events, o⟩

/-- The countdown operation `timed` (lines 166-201): parse `cmd.args.time`
with `time.ParseDuration`, returning its error on failure; compute
`unit = t / 100` (Go `int64` division truncates toward zero, `Int.tdiv`);
`time.NewTicker(t / 100)` panics when its argument is non-positive; otherwise
the full countdown runs (progress display, sleep, stop signal, expiry
message — timing modelled separately below) and the function returns `nil`. -/
def timed (timeArg : String) : Trace :=
  match parseDuration timeArg with
  | .error _ => ⟨[], .err .durationParse⟩
  | .ok t =>
    let unit := Int.tdiv t 100
    if unit ≤ 0 then ⟨[], .panicked⟩
    else ⟨[.countdown t], .ok⟩

/-- The `playSound` operation (lines 308-330): look the name up in
`cmd.sounds` (error `errSoundNotFound` if absent), then run the external play
command on the resolved path (command-template construction from
`TIMER_SOUND_CMD` is abstracted into the oracle). -/
def playSound (sounds : List (String × String)) (soundArg : String) (ext : Ext) :
    Trace :=
  match lookupSounds sounds soundArg with
  | none => ⟨[], .err .soundNotFound⟩
  | some path =>
    if ext.playOk then ⟨[.played path], .ok⟩
    else ⟨[.played path], .err .playFailed⟩

/-- The `notify` operation (lines 221-228): invoke the notification
collaborator; error on its failure. -/
def notifyOp (ext : Ext) : Trace :=
  if ext.notifyOk then ⟨[.notified], .ok⟩
  else ⟨[.notified], .err .notifyFailed⟩

/-- The `timedSound` operation (lines 205-218): pre-validate the sound name
against `cmd.sounds` (returning `errSoundNotFound` before anything runs when
absent), then `timed`, then `playSound`. -/
def timedSound (a : cmdArgs) (sounds : List (String × String)) (ext : Ext) :
    Trace :=
  match lookupSounds sounds a.sound with
  | none => ⟨[], .err .soundNotFound⟩
  | some _ => seqT (timed a.time) (fun _ => playSound sounds a.sound ext)

/-- The `timedNotify` operation (lines 232-240): `timed`, then `notify`. -/
def timedNotify (a : cmdArgs) (ext : Ext) : Trace :=
  seqT (timed a.time) (fun _ => notifyOp ext)

/-- The `timedSoundNotify` operation (lines 244-255): `timed`, then `notify`,
then `playSound` — with no pre-validation of the sound name. -/
def timedSoundNotify (a : cmdArgs) (sounds : List (String × String)) (ext : Ext) :
    Trace :=
  seqT (timed a.time)
    (fun _ => seqT (notifyOp ext) (fun _ => playSound sounds a.sound ext))

/-- The `deleteSound` operation (lines 291-304): look the name up in
`cmd.sounds`, returning `errSoundNotFound` (and touching nothing) if absent;
otherwise `os.Remove` the backing file, propagating a removal error. -/
def deleteSound (a : cmdArgs) (sounds : List (String × String)) (ext : Ext) :
    Trace :=
  match lookupSounds sounds a.deleteSound with
  | none => ⟨[], .err .soundNotFound⟩
  | some path =>
    if ext.removeOk path then ⟨[.removedFile path], .ok⟩
    else ⟨[.removedFile path], .err .removeFailed⟩

/-- The `addSound` operation (lines 271-286): `ioutil.ReadFile` the source
(propagating a read error), then `ioutil.WriteFile` the bytes to
`filepath.Join(getSoundsDir(), filepath.Base(source))` (propagating a write
error). The function never assigns to `cmd.sounds`, so the in-memory map is
returned unchanged alongside the trace. -/
def addSound (a : cmdArgs) (sounds : List (String × String)) (ext : Ext)
    (home : String) : List (String × String) × Trace :=
  match ext.readFile a.addSound with
  | none => (sounds, ⟨[], .err .readFailed⟩)
  | some data =>
    let newFileLoc := pathJoin (getSoundsDir home) (String.mk (goBase a.addSound.data))
    if ext.writeOk newFileLoc then (sounds, ⟨[.wroteFile newFileLoc data], .ok⟩)
    else (sounds, ⟨[.wroteFile newFileLoc data], .err .writeFailed⟩)

/-! ## Countdown progress display (the goroutine of `timed`, lines 180-194)

The background updater keeps `pc` (starting at 1) and `passed` (starting at
`unit`); on each delivered ticker fire it prints the line
`pc% [passed, t - passed, t]` and then increments `pc` by one and `passed`
by `unit`. Timing is idealised: the ticker created by
`time.NewTicker(unit)` fires at times `unit, 2*unit, ...` and the fire at
time `k*unit` is delivered while `k*unit ≤ t`, the foreground signalling
stop at time `t` (after `time.Sleep(t)`); hence `t.tdiv unit` fires are
delivered. -/

/-- State of the updater goroutine: the `pc` and `passed` locals. -/
structure UpdState where
  pc : Int
  passed : Int
  deriving DecidableEq

/-- One pass of the updater loop after printing: `passed += unit; pc++`. -/
def updStep (unit : Int) (s : UpdState) : UpdState :=
  ⟨s.pc + 1, s.passed + unit⟩

/-- Updater state after `n` loop passes, from the initial `pc = 1`,
`passed = unit`. The line printed on the k-th delivered fire (1-indexed)
shows the components of `updAfter unit (k - 1)`. -/
def updAfter (unit : Int) : Nat → UpdState
  | 0 => ⟨1, unit⟩
  | n + 1 => updStep unit (updAfter unit n)

/-- Number of ticker fires delivered to the updater before the stop signal,
under the idealised timing above. -/
def numTicks (t unit : Int) : Int := Int.tdiv t unit

/-! ## Shutdown ordering of `timed` (lines 180-199)

A small-step interleaving semantics of the two tasks of `timed`: the
foreground (`time.Sleep(t); done <- struct{}{}; fmt.Println("expired")`) and
the background updater (loop: receive a ticker fire and print a progress
line, or receive `done` and return). The unbuffered channel `done` makes the
send and the receive one rendezvous step. The trace is recorded most recent
event first. -/

/-- Observable events of the shutdown model: the sleep of the full duration
ending, a progress line printed on a ticker fire, the `done` rendezvous, and
the expiry message. -/
inductive TEv where
  | sleepEnd
  | tick
  | sync
  | expiry
  deriving DecidableEq

/-- Joint state: the foreground program counter (0 = sleeping, 1 = at the
`done` send, 2 = send completed, 3 = expiry printed), whether the updater
goroutine is still in its loop, and the trace so far (most recent first). -/
structure Sys where
  mainPC : Nat
  updAlive : Bool
  rtrace : List TEv
  deriving DecidableEq

/-- Interleaved small steps of `timed`'s two tasks. A ticker fire can be
received whenever the updater is in its loop; the rendezvous on the
unbuffered `done` needs the foreground at the send and the updater in its
loop, and ends the loop (`return`); the expiry print follows the completed
send in foreground program order. -/
inductive TStep : Sys → Sys → Prop where
  | tick (s : Sys) : s.updAlive = true →
      TStep s ⟨s.mainPC, true, .tick :: s.rtrace⟩
  | wake (s : Sys) : s.mainPC = 0 →
      TStep s ⟨1, s.updAlive, .sleepEnd :: s.rtrace⟩
  | rendezvous (s : Sys) : s.mainPC = 1 → s.updAlive = true →
      TStep s ⟨2, false, .sync :: s.rtrace⟩
  | expire (s : Sys) : s.mainPC = 2 →
      TStep s ⟨3, s.updAlive, .expiry :: s.rtrace⟩

/-- Reachability by zero or more interleaved steps. -/
inductive TReaches : Sys → Sys → Prop where
  | refl (s : Sys) : TReaches s s
  | tail {a b c : Sys} : TReaches a b → TStep b c → TReaches a c

/-- Initial state of a countdown: foreground sleeping, updater live, empty
trace. -/
def sysInit : Sys := ⟨0, true, []⟩

/-- Invariant of the shutdown model of `timed`: the foreground program
counter stays in 0..3; once past the sleep the trace holds `sleepEnd`; once
the rendezvous completed the trace holds `sync` and the updater loop has
ended; the expiry message is absent until the foreground prints it; and when
it has been printed it is the most recent event, preceded by the rendezvous
and the end of the sleep. -/
def SysInv (s : Sys) : Prop :=
  s.mainPC ≤ 3 ∧
  (1 ≤ s.mainPC → TEv.sleepEnd ∈ s.rtrace) ∧
  (2 ≤ s.mainPC → TEv.sync ∈ s.rtrace ∧ s.updAlive = false) ∧
  (s.mainPC ≤ 2 → TEv.expiry ∉ s.rtrace) ∧
  (s.mainPC = 3 → ∃ rest, s.rtrace = TEv.expiry :: rest ∧ TEv.expiry ∉ rest ∧
    TEv.sync ∈ rest ∧ TEv.sleepEnd ∈ rest)

/-- Concrete oracle for witnesses: collaborators succeed, every read errors. -/
def extW : Ext := ⟨true, true, fun _ => true, fun _ => none, fun _ => true⟩

/-- Concrete oracle for witnesses: collaborators succeed, every read yields
the single byte `[7]`. -/
def extR : Ext := ⟨true, true, fun _ => true, fun _ => some [7], fun _ => true⟩

/-! ## Theorems -/

/-- C1 (counterexample): the dispatcher does not recognise seven bitmask
values: over the 64 possible flag-presence bitmasks (all below 128, since the
six bits occupy positions 1 to 6), the number of values on which `dispatch`
succeeds is eight, not seven — so however seven legal masks are chosen, some
mask outside them dispatches successfully instead of failing. -/
theorem dispatch_eight_not_seven :
    ((List.range 128).filter (fun m => (dispatch m).isSome)).length = 8 ∧
    (8 : Nat) ≠ 7 := by
  decide

/-- C1 (amended): for every one of the EIGHT legal flag-combination bitmasks
(time; time+sound; time+notify; time+sound+notify; sounds; sound; addsound;
deletesound) the dispatcher selects exactly the operation the table of spec
section 4.3 assigns to it, and every other bitmask value over the six
flag-presence bits (the all-absent value 0 included) fails dispatch — the
lookup is exact-match only, with no partial or superset fallback. -/
theorem dispatch_exact_match : ∀ m : Fin 128, dispatch m.val = specDispatch m.val := by
  decide

/-- C3 (counterexample): the string `"0"` does not match the
`<integer><unit>` (unit in h, m, s) format — it has no unit at all — yet
`time.ParseDuration` accepts it (its special case for `"0"`), so parsing it
does not fail with a malformed-duration error; likewise `"500ms"` parses even
though `ms` is outside the claimed unit set. -/
theorem parseDuration_nonmatching_ok :
    parseDuration "0" = .ok 0 ∧ parseDuration "500ms" = .ok 500000000 :=
  ⟨rfl, rfl⟩

/-- C3 (amended): parsing `"2h"` yields 7200 seconds and `"2m200s"` yields
320 seconds (components may overflow their natural unit range), and parsing
the empty string or a string such as `"abc"` or `"2x"` fails with a
duration-parse error; however the parser is Go's `time.ParseDuration`, which
also accepts inputs outside the `<integer><unit>` (unit in h, m, s) format:
the bare string `"0"`, sub-second units such as `"500ms"`, signs and
fractions. -/
theorem parseDuration_examples :
    parseDuration "2h" = .ok (7200 * 1000000000) ∧
    parseDuration "2m200s" = .ok (320 * 1000000000) ∧
    parseDuration "" = .error .invalid ∧
    parseDuration "abc" = .error .invalid ∧
    parseDuration "2x" = .error .unknownUnit ∧
    parseDuration "0" = .ok 0 ∧
    parseDuration "-5s" = .ok (-5000000000) ∧
    parseDuration "1.5h" = .ok 5400000000000 :=
  ⟨rfl, rfl, rfl, rfl, rfl, rfl, rfl, rfl⟩

/-- C2 (counterexample): for the input `"0s"`, which parses to the duration 0,
`timed` does not reject the duration with an error return: it reaches
`time.NewTicker(0 / 100)` and panics (outcome `panicked`, whose `isErr` is
false), so no error is returned before the countdown would start. -/
theorem timed_zero_not_rejected :
    timed "0s" = ⟨[], .panicked⟩ ∧ (timed "0s").outcome.isErr = false := by
  decide

/-- C2 (amended): for every input duration that parses to a value `t ≤ 0`,
`timed` does not explicitly reject it; the tick unit `t / 100` is a division
by the constant 100 and can never divide by zero, and `time.NewTicker(t/100)`
panics on its non-positive argument, so the countdown never starts and the
program does not hang — it crashes with a panic instead of returning an
error. -/
theorem timed_nonpositive_panics (s : String) (t : Int)
    (hp : parseDuration s = .ok t) (ht : t ≤ 0) :
    timed s = ⟨[], .panicked⟩ := by
  have h1 : Int.tdiv t 100 ≤ 0 := by
    have h2 := Int.tdiv_nonneg (a := -t) (b := 100) (by omega) (by norm_num)
    rw [Int.neg_tdiv] at h2
    omega
  simp only [timed, hp, if_pos h1]

/-- C2 (witness): the amended theorem applied to the concrete input `"0s"`. -/
theorem timed_nonpositive_panics_witness :
    parseDuration "0s" = .ok 0 ∧ timed "0s" = ⟨[], .panicked⟩ :=
  ⟨rfl, timed_nonpositive_panics "0s" 0 rfl (by norm_num)⟩

/-- Closed form of the updater state: after `n` loop passes, `pc = n + 1` and
`passed = (n + 1) * unit`. -/
theorem updAfter_closed (unit : Int) (n : Nat) :
    updAfter unit n = ⟨(n : Int) + 1, ((n : Int) + 1) * unit⟩ := by
  induction n with
  | zero => simp [updAfter]
  | succ k ih =>
    simp only [updAfter, updStep, ih, UpdState.mk.injEq]
    constructor
    · push_cast; ring
    · push_cast; ring

/-- C4 (counterexample): for the countdown duration 150 (nanoseconds, the
parse of `"150ns"`, a legal `-t` argument), the tick unit is `150 / 100 = 1`
and under the idealised timing 150 ticker fires are delivered, the last of
which displays percentage 150 — outside the claimed range `[0, 100]`. -/
theorem countdown_percent_over_100 :
    parseDuration "150ns" = .ok 150 ∧
    Int.tdiv 150 100 = 1 ∧
    numTicks 150 (Int.tdiv 150 100) = 150 ∧
    (updAfter (Int.tdiv 150 100) 149).pc = 150 ∧
    ¬ (updAfter (Int.tdiv 150 100) 149).pc ≤ 100 := by
  refine ⟨rfl, by decide, by decide, ?_, ?_⟩ <;>
    rw [updAfter_closed] <;> norm_num

/-- C4 (amended): at every ticker fire delivered during a countdown of total
duration `t` with a positive tick unit `t / 100` (the k-th fire, for
`1 ≤ k ≤ numTicks`), the displayed elapsed value `passed` is monotonically
non-decreasing from one update to the next and never exceeds `t` (so the
displayed remaining time `t - passed` is never negative), and the displayed
percentage is non-negative; the upper bound `percentage ≤ 100` holds whenever
`t` is divisible by 100 — in particular for every duration given in whole
hours, minutes or seconds — but not for every parsable duration (see the
counterexample). -/
theorem countdown_display_invariant (t : Int) (k : Nat)
    (hk : 1 ≤ k) (hu : 0 < Int.tdiv t 100)
    (hkt : (k : Int) ≤ numTicks t (Int.tdiv t 100)) :
    (updAfter (Int.tdiv t 100) (k - 1)).passed ≤
      (updAfter (Int.tdiv t 100) k).passed ∧
    0 ≤ (updAfter (Int.tdiv t 100) (k - 1)).pc ∧
    (updAfter (Int.tdiv t 100) (k - 1)).passed ≤ t ∧
    ((100 : Int) ∣ t → (updAfter (Int.tdiv t 100) (k - 1)).pc ≤ 100) := by
  have htpos : 0 < t := by
    by_contra hc
    push_neg at hc
    have h2 := Int.tdiv_nonneg (a := -t) (b := 100) (by omega) (by norm_num)
    rw [Int.neg_tdiv] at h2
    omega
  have hcast : ((k - 1 : Nat) : Int) = (k : Int) - 1 := by omega
  simp only [numTicks] at hkt
  simp only [updAfter_closed, hcast, sub_add_cancel]
  refine ⟨?_, ?_, ?_, ?_⟩
  · exact mul_le_mul_of_nonneg_right (by linarith) (le_of_lt hu)
  · exact_mod_cast Int.ofNat_nonneg k
  · have hdiv : Int.tdiv t (Int.tdiv t 100) = t / Int.tdiv t 100 :=
      Int.tdiv_eq_ediv (le_of_lt htpos) (le_of_lt hu)
    rw [hdiv] at hkt
    exact (Int.le_ediv_iff_mul_le hu).mp hkt
  · intro hdvd
    obtain ⟨c, hc⟩ := hdvd
    have hcpos : 0 < c := by omega
    have huc : Int.tdiv t 100 = c := by
      rw [hc, Int.mul_tdiv_cancel_left _ (by norm_num : (100 : Int) ≠ 0)]
    rw [huc, hc, mul_comm, Int.mul_tdiv_cancel_left _ (by omega : c ≠ 0)] at hkt
    exact hkt

/-- C4 (witness): the amended theorem applied to the countdown of duration
100 at its first delivered ticker fire. -/
theorem countdown_display_invariant_witness :
    (updAfter (Int.tdiv 100 100) 0).passed ≤ (updAfter (Int.tdiv 100 100) 1).passed ∧
    0 ≤ (updAfter (Int.tdiv 100 100) 0).pc ∧
    (updAfter (Int.tdiv 100 100) 0).passed ≤ 100 ∧
    ((100 : Int) ∣ 100 → (updAfter (Int.tdiv 100 100) 0).pc ≤ 100) :=
  countdown_display_invariant 100 1 (by norm_num) (by decide) (by decide)

/-- C5 (counterexample): the library does not always register a file under
its base name with the extension suffix stripped: registration removes the
FIRST occurrence of the extension text (`strings.Replace(base, ext, "", 1)`).
For the file `"x.sox.so"` (extension `".so"`) the registered name is
`"xx.so"` whereas stripping the extension from the base name gives
`"x.sox"`. -/
theorem soundName_not_suffix_strip :
    soundName "x.sox.so".data = "xx.so".data ∧
    stripSuffixName "x.sox.so".data = "x.sox".data ∧
    soundName "x.sox.so".data ≠ stripSuffixName "x.sox.so".data := by
  refine ⟨rfl, rfl, ?_⟩
  decide

/-- C5 (amended): a file placed in the configuration directory is registered
under the name obtained by removing the first occurrence of its extension
text from its base name (which coincides with stripping the extension
whenever the extension text does not also occur earlier in the name, as in
`Alien.mp3`, registered as `Alien`), with the joined path as the value; and
lookup of a name is case-sensitive and exact: any string other than the
registered name — in particular a different capitalisation such as `alien`
— is not found. -/
theorem soundLibrary_register_exact (dir f other : String)
    (h : other ≠ String.mk (soundName f.data)) :
    lookupSounds (buildSounds dir [f]) (String.mk (soundName f.data)) =
      some (pathJoin dir f) ∧
    lookupSounds (buildSounds dir [f]) other = none := by
  constructor
  · simp [buildSounds, mapInsert, lookupSounds, List.find?]
  · simp only [buildSounds, List.foldl, mapInsert, lookupSounds, List.find?]
    have hb : (String.mk (soundName f.data) == other) = false := by
      simp only [beq_eq_false_iff_ne]
      exact fun hcontra => h hcontra.symm
    rw [hb]
    rfl

/-- C5 (witness): the amended theorem applied to the file `Alien.mp3`: it is
registered under `Alien` and is not found under `alien`. -/
theorem soundLibrary_register_exact_witness :
    lookupSounds (buildSounds "/h/.config/timer/sounds" ["Alien.mp3"])
      (String.mk (soundName "Alien.mp3".data)) =
      some (pathJoin "/h/.config/timer/sounds" "Alien.mp3") ∧
    lookupSounds (buildSounds "/h/.config/timer/sounds" ["Alien.mp3"]) "alien" = none :=
  soundLibrary_register_exact "/h/.config/timer/sounds" "Alien.mp3" "alien" (by decide)

/-- C6: `timedSound` pre-validates the requested sound name against the
library: when the name is absent it fails with `soundNotFound` before
anything runs (no countdown event), and when the name is present (and the
duration parses to a value with positive tick unit and the player succeeds)
it runs the countdown first and plays the sound second, in that order. -/
theorem timedSound_prevalidates (a : cmdArgs) (sounds : List (String × String))
    (ext : Ext) :
    (lookupSounds sounds a.sound = none →
      timedSound a sounds ext = ⟨[], .err .soundNotFound⟩) ∧
    (∀ p t, lookupSounds sounds a.sound = some p →
      parseDuration a.time = .ok t → 0 < Int.tdiv t 100 → ext.playOk = true →
      timedSound a sounds ext = ⟨[.countdown t, .played p], .ok⟩) := by
  constructor
  · intro h
    simp [timedSound, h]
  · intro p t hlook hparse htick hplay
    simp [timedSound, hlook, seqT, timed, hparse, not_le.mpr htick, playSound, hplay]

/-- C6 (witness): the theorem applied to a concrete one-sound library: the
absent name `Boom` fails fast with no countdown, the present name `Alien`
with duration `"2s"` counts down and then plays. -/
theorem timedSound_prevalidates_witness :
    timedSound ⟨"1s", "Boom", false, false, "", "", false⟩
      [("Alien", "/s/Alien.mp3")] extW = ⟨[], .err .soundNotFound⟩ ∧
    timedSound ⟨"2s", "Alien", false, false, "", "", false⟩
      [("Alien", "/s/Alien.mp3")] extW =
      ⟨[.countdown 2000000000, .played "/s/Alien.mp3"], .ok⟩ :=
  ⟨(timedSound_prevalidates _ _ _).1 (by decide),
   (timedSound_prevalidates _ _ _).2 "/s/Alien.mp3" 2000000000 (by decide) rfl
     (by decide) rfl⟩

/-- C10: `timedSoundNotify` does not pre-validate the sound name: for a
sound name absent from the library (with a parsable duration of positive
tick unit and a succeeding notifier), the full countdown runs and the
notification is shown, and only then does the operation fail with
`soundNotFound` inside the play step. -/
theorem timedSoundNotify_no_prevalidation (a : cmdArgs)
    (sounds : List (String × String)) (ext : Ext) (t : Int)
    (hlook : lookupSounds sounds a.sound = none)
    (hparse : parseDuration a.time = .ok t)
    (htick : 0 < Int.tdiv t 100)
    (hn : ext.notifyOk = true) :
    timedSoundNotify a sounds ext =
      ⟨[.countdown t, .notified], .err .soundNotFound⟩ := by
  simp [timedSoundNotify, seqT, timed, hparse, not_le.mpr htick, notifyOp, hn,
    playSound, hlook]

/-- C10 (witness): the theorem applied to the empty library with the absent
name `Ghost` and duration `"1s"`. -/
theorem timedSoundNotify_no_prevalidation_witness :
    timedSoundNotify ⟨"1s", "Ghost", false, true, "", "", false⟩ [] extW =
      ⟨[.countdown 1000000000, .notified], .err .soundNotFound⟩ :=
  timedSoundNotify_no_prevalidation _ [] extW 1000000000 rfl rfl (by decide) rfl

/-- C8: `deleteSound` on a name not present in the library fails with
`soundNotFound` and performs no file-system mutation (its event trace is
empty: the removal step is not reached); on a present name it removes the
backing file and fails exactly when the removal fails. -/
theorem deleteSound_not_found_no_mutation (a : cmdArgs)
    (sounds : List (String × String)) (ext : Ext) :
    (lookupSounds sounds a.deleteSound = none →
      deleteSound a sounds ext = ⟨[], .err .soundNotFound⟩) ∧
    (∀ p, lookupSounds sounds a.deleteSound = some p →
      deleteSound a sounds ext =
        (if ext.removeOk p then ⟨[.removedFile p], .ok⟩
         else ⟨[.removedFile p], .err .removeFailed⟩)) := by
  constructor
  · intro h
    simp [deleteSound, h]
  · intro p h
    simp [deleteSound, h]

/-- C8 (witness): the theorem applied to a concrete one-sound library: the
absent name `Boom` fails with an empty event trace, the present name `Alien`
removes its backing file. -/
theorem deleteSound_not_found_no_mutation_witness :
    deleteSound ⟨"", "", false, false, "", "Boom", false⟩
      [("Alien", "/s/Alien.mp3")] extW = ⟨[], .err .soundNotFound⟩ ∧
    deleteSound ⟨"", "", false, false, "", "Alien", false⟩
      [("Alien", "/s/Alien.mp3")] extW = ⟨[.removedFile "/s/Alien.mp3"], .ok⟩ := by
  refine ⟨(deleteSound_not_found_no_mutation _ _ _).1 (by decide), ?_⟩
  have h := (deleteSound_not_found_no_mutation
    ⟨"", "", false, false, "", "Alien", false⟩ [("Alien", "/s/Alien.mp3")] extW).2
    "/s/Alien.mp3" (by decide)
  simpa using h

/-- C9: `addSound` leaves the in-memory name-to-path map unchanged, and its
event trace copies the read bytes to the configuration directory under the
source's base file name; it fails exactly when the source cannot be read
(error before any write) or the destination cannot be written. -/
theorem addSound_frame (a : cmdArgs) (sounds : List (String × String))
    (ext : Ext) (home : String) :
    (addSound a sounds ext home).1 = sounds ∧
    (addSound a sounds ext home).2.outcome.isErr =
      ((ext.readFile a.addSound).isNone ||
        !ext.writeOk (pathJoin (getSoundsDir home) (String.mk (goBase a.addSound.data)))) ∧
    (ext.readFile a.addSound = none →
      (addSound a sounds ext home).2 = ⟨[], .err .readFailed⟩) ∧
    (∀ data, ext.readFile a.addSound = some data →
      (addSound a sounds ext home).2 =
        (if ext.writeOk (pathJoin (getSoundsDir home) (String.mk (goBase a.addSound.data)))
         then ⟨[.wroteFile (pathJoin (getSoundsDir home)
                  (String.mk (goBase a.addSound.data))) data], .ok⟩
         else ⟨[.wroteFile (pathJoin (getSoundsDir home)
                  (String.mk (goBase a.addSound.data))) data], .err .writeFailed⟩)) := by
  refine ⟨?_, ?_, ?_, ?_⟩
  · cases hr : ext.readFile a.addSound with
    | none => simp [addSound, hr]
    | some data =>
      by_cases hw : ext.writeOk (pathJoin (getSoundsDir home)
        (String.mk (goBase a.addSound.data))) <;> simp [addSound, hr, hw]
  · cases hr : ext.readFile a.addSound with
    | none => simp [addSound, hr, Outcome.isErr]
    | some data =>
      by_cases hw : ext.writeOk (pathJoin (getSoundsDir home)
        (String.mk (goBase a.addSound.data))) <;>
        simp [addSound, hr, hw, Outcome.isErr]
  · intro hr
    simp [addSound, hr]
  · intro data hr
    by_cases hw : ext.writeOk (pathJoin (getSoundsDir home)
      (String.mk (goBase a.addSound.data))) <;> simp [addSound, hr, hw]

/-- C9 (witness): the theorem applied to the source path `/tmp/clip.mp3`:
with an unreadable source the operation fails with no write; with a readable
source the bytes land in the configuration directory under `clip.mp3`, and
the map is unchanged either way. -/
theorem addSound_frame_witness :
    (addSound ⟨"", "", false, false, "/tmp/clip.mp3", "", false⟩
      [("A", "/p")] extW "/home/u").1 = [("A", "/p")] ∧
    (addSound ⟨"", "", false, false, "/tmp/clip.mp3", "", false⟩
      [("A", "/p")] extW "/home/u").2 = ⟨[], .err .readFailed⟩ ∧
    (addSound ⟨"", "", false, false, "/tmp/clip.mp3", "", false⟩
      [("A", "/p")] extR "/home/u").2 =
      ⟨[.wroteFile "/home/u/.config/timer/sounds/clip.mp3" [7]], .ok⟩ := by
  refine ⟨(addSound_frame _ _ extW _).1, (addSound_frame _ _ extW _).2.2.1 rfl, ?_⟩
  have h := (addSound_frame ⟨"", "", false, false, "/tmp/clip.mp3", "", false⟩
    [("A", "/p")] extR "/home/u").2.2.2 [7] rfl
  simpa using h

/-- The invariant holds initially. -/
theorem sysInv_init : SysInv sysInit := by
  refine ⟨?_, ?_, ?_, ?_, ?_⟩ <;> dsimp only [sysInit, SysInv]
  · omega
  · intro h
    omega
  · intro h
    omega
  · intro _
    exact List.not_mem_nil _
  · intro h
    omega

/-- Each interleaved step preserves the invariant. -/
theorem sysInv_step {s1 s2 : Sys} (hs : TStep s1 s2) (hi : SysInv s1) :
    SysInv s2 := by
  obtain ⟨i0, i1, i2, i3, i4⟩ := hi
  cases hs with
  | tick halive =>
    have hpc : s1.mainPC ≤ 1 := by
      by_contra hc
      have hdead := (i2 (by omega)).2
      rw [halive] at hdead
      exact Bool.noConfusion hdead
    refine ⟨?_, ?_, ?_, ?_, ?_⟩ <;> dsimp only
    · omega
    · intro h
      exact List.mem_cons_of_mem _ (i1 h)
    · intro h
      omega
    · intro _
      have hne : TEv.expiry ≠ TEv.tick := by decide
      simp only [List.mem_cons]
      push_neg
      exact ⟨hne, i3 (by omega)⟩
    · intro h
      omega
  | wake hpc =>
    refine ⟨?_, ?_, ?_, ?_, ?_⟩ <;> dsimp only
    · omega
    · intro _
      exact List.mem_cons_self _ _
    · intro h
      omega
    · intro _
      have hne : TEv.expiry ≠ TEv.sleepEnd := by decide
      simp only [List.mem_cons]
      push_neg
      exact ⟨hne, i3 (by omega)⟩
    · intro h
      omega
  | rendezvous hpc halive =>
    refine ⟨?_, ?_, ?_, ?_, ?_⟩ <;> dsimp only
    · omega
    · intro _
      exact List.mem_cons_of_mem _ (i1 (by omega))
    · intro _
      exact ⟨List.mem_cons_self _ _, rfl⟩
    · intro _
      have hne : TEv.expiry ≠ TEv.sync := by decide
      simp only [List.mem_cons]
      push_neg
      exact ⟨hne, i3 (by omega)⟩
    · intro h
      omega
  | expire hpc =>
    refine ⟨?_, ?_, ?_, ?_, ?_⟩ <;> dsimp only
    · omega
    · intro _
      exact List.mem_cons_of_mem _ (i1 (by omega))
    · intro _
      exact ⟨List.mem_cons_of_mem _ (i2 (by omega)).1, (i2 (by omega)).2⟩
    · intro h
      omega
    · intro _
      exact ⟨s1.rtrace, rfl, i3 (by omega), (i2 (by omega)).1, i1 (by omega)⟩

/-- Every state reachable from the initial state satisfies the invariant. -/
theorem sysInv_reaches {s : Sys} (hr : TReaches sysInit s) : SysInv s := by
  induction hr with
  | refl => exact sysInv_init
  | tail _ hstep ih => exact sysInv_step hstep ih

/-- C7: in every reachable state of a countdown whose trace contains the
expiry message (trace most recent first, split as `post ++ expiry :: pre`),
the expiry message is the latest event (`post = []`), so no progress update
prints after it, and it is preceded both by the `done` rendezvous that
terminates the background updater and by the end of the full-duration
sleep. -/
theorem timed_expiry_ordering (s : Sys) (hr : TReaches sysInit s)
    (post pre : List TEv) (hsplit : s.rtrace = post ++ TEv.expiry :: pre) :
    post = [] ∧ TEv.tick ∉ post ∧ TEv.sync ∈ pre ∧ TEv.sleepEnd ∈ pre := by
  obtain ⟨i0, i1, i2, i3, i4⟩ := sysInv_reaches hr
  have hmem : TEv.expiry ∈ s.rtrace := by
    rw [hsplit]
    exact List.mem_append_right _ (List.mem_cons_self _ _)
  have hpc3 : s.mainPC = 3 := by
    by_contra hc
    exact i3 (by omega) hmem
  obtain ⟨rest, hrest, hnotin, hsync, hsleep⟩ := i4 hpc3
  rw [hrest] at hsplit
  cases post with
  | nil =>
    simp only [List.nil_append, List.cons.injEq, true_and] at hsplit
    subst hsplit
    exact ⟨rfl, List.not_mem_nil _, hsync, hsleep⟩
  | cons e post1 =>
    exfalso
    simp only [List.cons_append, List.cons.injEq] at hsplit
    apply hnotin
    rw [hsplit.2]
    exact List.mem_append_right _ (List.mem_cons_self _ _)

/-- C7 (witness): the theorem applied to a concrete four-step execution of
the model (sleep ends, one tick prints, the rendezvous, the expiry print). -/
theorem timed_expiry_ordering_witness :
    ([] : List TEv) = [] ∧ TEv.tick ∉ ([] : List TEv) ∧
    TEv.sync ∈ [TEv.sync, TEv.tick, TEv.sleepEnd] ∧
    TEv.sleepEnd ∈ [TEv.sync, TEv.tick, TEv.sleepEnd] :=
  timed_expiry_ordering
    ⟨3, false, [TEv.expiry, TEv.sync, TEv.tick, TEv.sleepEnd]⟩
    (TReaches.tail
      (TReaches.tail
        (TReaches.tail
          (TReaches.tail (TReaches.refl sysInit)
            (TStep.wake sysInit rfl))
          (TStep.tick ⟨1, true, [TEv.sleepEnd]⟩ rfl))
        (TStep.rendezvous ⟨1, true, [TEv.tick, TEv.sleepEnd]⟩ rfl rfl))
      (TStep.expire ⟨2, false, [TEv.sync, TEv.tick, TEv.sleepEnd]⟩ rfl))
    [] [TEv.sync, TEv.tick, TEv.sleepEnd] rfl

end Timer










